import Mathlib

/-!
Shallow embedding of the Qlip clipboard-history engine (src/qlip.py).

The engine state (`ManagerState`) carries the item list, the insertion
counter (`ClipboardItem._counter` in the source) and the pause flag.
Qt collaborator types (`QMimeData`, `QPixmap`, `QUrl`) are modelled just
deeply enough to express the representations the engine inspects:
an image is its decoded pixel content, a URL is either a local file
path or a remote URL.  `list.sort` in Python is a stable sort by key;
it is modelled with `List.insertionSort`, which is also stable, so the
two agree on every input.
-/

namespace Qlip

/-- Decoded image content: a `QImage` is modelled by its pixel rows, since
the engine only ever compares images by `toImage()` content equality. -/
abbrev QImage := List (List Nat)

/-- `QPixmap`: the clipboard stores pixmaps obtained via `QPixmap.fromImage`. -/
structure QPixmap where
  image : QImage
deriving DecidableEq

def QPixmap.fromImage (i : QImage) : QPixmap := ⟨i⟩

def QPixmap.toImage (p : QPixmap) : QImage := p.image

/-- The `data` field of a `ClipboardItem`: a Python value that is either a
string (text/url/file items) or a `QPixmap` (image items). -/
inductive PayloadData where
  | str (s : String)
  | pix (p : QPixmap)
deriving DecidableEq

/-- `item.data == data` where `data` is a Python string: a `QPixmap` never
equals a string in Python, so only string payloads can match. -/
def dataEqStr : PayloadData → String → Bool
  | .str t, s => t == s
  | .pix _, _ => false

/-- `isinstance(item.data, QPixmap) and item.data.toImage() == pixmap.toImage()`. -/
def dataEqPix : PayloadData → QPixmap → Bool
  | .str _, _ => false
  | .pix q, p => q.toImage == p.toImage

/-- The duplicate comparison the source performs before inserting a new
payload: string candidates use raw string equality against each existing
item's `data`, image candidates use decoded pixel-content equality. -/
def payloadEq (a b : PayloadData) : Bool :=
  match b with
  | .str s => dataEqStr a s
  | .pix p => dataEqPix a p

/-- One history entry (`ClipboardItem` in the source).  `data_type` is one of
the strings `"text"`, `"url"`, `"file"`, `"image"`. -/
structure ClipboardItem where
  data_type : String
  data : PayloadData
  favorite : Bool
  index : Nat
deriving DecidableEq

/-- One persisted record, as written to `~/.qlip.json` by `to_dict`. -/
structure Record where
  data_type : String
  data : String
  favorite : Bool
  index : Nat
deriving DecidableEq

/-- `data` of a non-image item, which in the source is always a string. -/
def payloadString : PayloadData → String
  | .str s => s
  | .pix _ => ""

/-- `data` of an image item, which in the source is always a pixmap. -/
def payloadPixmap : PayloadData → QPixmap
  | .pix p => p
  | .str _ => ⟨[]⟩

/-- `ClipboardItem.to_dict` (only ever applied to non-image items). -/
def ClipboardItem.to_dict (it : ClipboardItem) : Record :=
  ⟨it.data_type, payloadString it.data, it.favorite, it.index⟩

/-- `ClipboardItem.from_dict`: rebuilds an item from a persisted record,
restoring the saved index.  (The transient bump of the global counter made
by `__init__` is irrelevant: `load_items_from_file` overwrites the counter
unconditionally right after.) -/
def ClipboardItem.from_dict (r : Record) : ClipboardItem :=
  ⟨r.data_type, .str r.data, r.favorite, r.index⟩

/-- The engine state: the `items` list, the class-level insertion counter
`ClipboardItem._counter`, and the pause flag. -/
structure ManagerState where
  items : List ClipboardItem
  counter : Nat
  is_paused : Bool
deriving DecidableEq

/-- The state right after `__init__` sets `self.items = []`,
`self.is_paused = False` (with the counter at its initial value 0). -/
def initialState : ManagerState := ⟨[], 0, false⟩

/-- Python `not x.favorite` as a sort rank: `False < True`. -/
def notFavRank (it : ClipboardItem) : Nat := if it.favorite then 0 else 1

/-- The comparison induced by the sort key `(not x.favorite, x.index)`. -/
def keyLE (a b : ClipboardItem) : Prop :=
  notFavRank a < notFavRank b ∨ (notFavRank a = notFavRank b ∧ a.index ≤ b.index)

instance : DecidableRel keyLE := fun a b =>
  inferInstanceAs (Decidable (notFavRank a < notFavRank b ∨
    (notFavRank a = notFavRank b ∧ a.index ≤ b.index)))

instance : IsTotal ClipboardItem keyLE :=
  ⟨fun a b => by unfold keyLE; omega⟩

instance : IsTrans ClipboardItem keyLE :=
  ⟨fun a b c => by unfold keyLE; omega⟩

/-- `reorder_items`: `self.items.sort(key=lambda x: (not x.favorite, x.index))`.
Python's sort is stable, as is insertion sort, so they produce the same list. -/
def reorder_items (items : List ClipboardItem) : List ClipboardItem :=
  List.insertionSort keyLE items

/-- `add_item_to_list`: construct the item (allocating the counter value as
its index and bumping the counter, as `ClipboardItem.__init__` does), append
it, and re-sort. -/
def add_item_to_list (st : ManagerState) (data_type : String) (data : PayloadData) :
    ManagerState :=
  { st with
    items := reorder_items (st.items ++ [⟨data_type, data, false, st.counter⟩]),
    counter := st.counter + 1 }

/-- The duplicate-guarded insertion each branch of `process_mime_data`
performs: `if not any(<payload comparison> for item in self.items): add`. -/
def ingest (st : ManagerState) (data_type : String) (data : PayloadData) : ManagerState :=
  if st.items.any (fun it => payloadEq it.data data) then st
  else add_item_to_list st data_type data

/-- A clipboard URL: either a local file (`isLocalFile`) or remote. -/
inductive QUrl where
  | localFile (path : String)
  | remote (url : String)
deriving DecidableEq

def QUrl.isLocalFile : QUrl → Bool
  | .localFile _ => true
  | .remote _ => false

def QUrl.toLocalFile : QUrl → String
  | .localFile p => p
  | .remote _ => ""

/-- Python `text.startswith(prefix)` (`String.startsWith`), modelled over
the character lists. -/
def strStartsWith (s pre : String) : Bool := pre.data.isPrefixOf s.data

/-- `QUrl(text).toLocalFile()` for a `file://` text: strips the 7-character
scheme prefix, leaving the local path. -/
def fileUriToLocalPath (s : String) : String := ⟨s.data.drop 7⟩

/-- A raw clipboard payload: the three representations `process_mime_data`
inspects (`hasText`/`text`, `hasImage`/`imageData`, `hasUrls`/`urls`). -/
structure QMimeData where
  textData : Option String
  imageData : Option QImage
  urlData : List QUrl

/-- `process_mime_data`: classify and ingest.  Branch order follows the
source exactly: `if hasText: ... elif hasImage: ... elif hasUrls: ...`. -/
def process_mime_data (st : ManagerState) (mime : QMimeData) : ManagerState :=
  match mime.textData with
  | some text =>
    if text ≠ "" then
      if strStartsWith text "http://" || strStartsWith text "https://" then
        ingest st "url" (.str text)
      else if strStartsWith text "file://" then
        ingest st "file" (.str (fileUriToLocalPath text))
      else if strStartsWith text "/" then
        ingest st "file" (.str text)
      else
        ingest st "text" (.str text)
    else st
  | none =>
    match mime.imageData with
    | some image =>
      ingest st "image" (.pix (QPixmap.fromImage image))
    | none =>
      mime.urlData.foldl
        (fun acc url =>
          if url.isLocalFile then
            if url.toLocalFile ≠ "" then ingest acc "file" (.str url.toLocalFile)
            else acc
          else acc)
        st

/-- `on_clipboard_change`: a no-op while paused, otherwise process. -/
def on_clipboard_change (st : ManagerState) (mime : QMimeData) : ManagerState :=
  if st.is_paused then st else process_mime_data st mime

/-- `toggle_pause` (the engine part; button/tray styling is UI only). -/
def toggle_pause (st : ManagerState) : ManagerState :=
  { st with is_paused := !st.is_paused }

/-- `delete_all_items`, confirmed branch: clear the list, reset the counter. -/
def delete_all_items (st : ManagerState) : ManagerState :=
  { st with items := [], counter := 0 }

/-- `toggle_favorite_item` on the item with the given index, followed by the
`reorder_items` call the source makes. -/
def toggle_favorite_item (st : ManagerState) (idx : Nat) : ManagerState :=
  { st with
    items := reorder_items (st.items.map
      (fun it => if it.index == idx then { it with favorite := !it.favorite } else it)) }

/-- `delete_item`: `self.items.remove(clipboard_item)` removes the first
matching entry; no re-sort happens. -/
def delete_item (st : ManagerState) (idx : Nat) : ManagerState :=
  { st with items := st.items.eraseP (fun it => it.index == idx) }

/-- `save_items_to_file`: the record list written to disk — every item
except images, each via `to_dict`. -/
def save_items_to_file (st : ManagerState) : List Record :=
  (st.items.filter (fun it => it.data_type != "image")).map ClipboardItem.to_dict

inductive LoadError where
  | parseError
deriving DecidableEq

/-- The state of the persisted history file as seen at startup: absent,
present but unparsable (or unreadable), or a well-formed record list. -/
inductive FileContents where
  | absent
  | malformed
  | wellFormed (records : List Record)

/-- `load_items_from_file`: if the file does not exist nothing happens; if
`json.load` fails the exception propagates (there is no handler in the
source); otherwise rebuild the items, set the counter to `max(index) + 1`
(0 when empty) and re-sort. -/
def load_items_from_file (st : ManagerState) (file : FileContents) :
    Except LoadError ManagerState :=
  match file with
  | .absent => .ok st
  | .malformed => .error .parseError
  | .wellFormed data =>
    let items := data.map ClipboardItem.from_dict
    let counter :=
      if items.isEmpty then 0
      else ((items.map ClipboardItem.index).foldl Nat.max 0) + 1
    .ok { st with items := reorder_items items, counter := counter }

/-- The effects `on_item_clicked` requests from the clipboard/desktop
collaborators. -/
inductive Effect where
  | setClipboardText (s : String)
  | setClipboardPixmap (p : QPixmap)
  | openLocalFile (path : String)
  | openUrl (u : String)
  | warnFileMissing (path : String)
  | infoMessage (s : String)
deriving DecidableEq

/-- `on_item_clicked`: activation of an item, parametrised by the
filesystem-existence oracle `os.path.exists`. -/
def on_item_clicked (fsExists : String → Bool) (it : ClipboardItem) : List Effect :=
  if it.data_type == "text" then
    Effect.setClipboardText (payloadString it.data) ::
      (if strStartsWith (payloadString it.data) "/" then
        if fsExists (payloadString it.data) then
          [Effect.openLocalFile (payloadString it.data)]
        else [Effect.warnFileMissing (payloadString it.data)]
      else [Effect.infoMessage "Text copied to clipboard."])
  else if it.data_type == "url" then
    [Effect.setClipboardText (payloadString it.data),
     Effect.openUrl (payloadString it.data)]
  else if it.data_type == "file" then
    Effect.setClipboardText (payloadString it.data) ::
      (if fsExists (payloadString it.data) then
        [Effect.openLocalFile (payloadString it.data)]
      else [Effect.warnFileMissing (payloadString it.data)])
  else if it.data_type == "image" then
    [Effect.setClipboardPixmap (payloadPixmap it.data),
     Effect.infoMessage "Image copied to clipboard."]
  else []

/-- The display-order view: the source keeps `self.items` sorted by calling
`reorder_items` after each mutation that needs it; the view is always this
recomputed sort of the current item set. -/
def ordered_view (st : ManagerState) : List ClipboardItem :=
  reorder_items st.items

/-- The `(kind, payload, favorite, id)` tuple of an item. -/
def itemTuple (it : ClipboardItem) : String × PayloadData × Bool × Nat :=
  (it.data_type, it.data, it.favorite, it.index)

/-- The reachable engine states: everything obtainable from the initial
state by clipboard events, pause toggles, user actions, drag-and-drop, and
reloading a history file previously saved from a reachable state. -/
inductive Reachable : ManagerState → Prop where
  | init : Reachable initialState
  | clipboardChange {st} (mime : QMimeData) :
      Reachable st → Reachable (on_clipboard_change st mime)
  | dropEvent {st} (mime : QMimeData) :
      Reachable st → Reachable (process_mime_data st mime)
  | pauseToggle {st} : Reachable st → Reachable (toggle_pause st)
  | favToggle {st} (idx : Nat) : Reachable st → Reachable (toggle_favorite_item st idx)
  | itemDelete {st} (idx : Nat) : Reachable st → Reachable (delete_item st idx)
  | allDelete {st} : Reachable st → Reachable (delete_all_items st)
  | persistReload {st st' st''} : Reachable st → Reachable st' →
      load_items_from_file st' (.wellFormed (save_items_to_file st)) = .ok st'' →
      Reachable st''

/-! ## Invariant machinery -/

/-- The payload comparison is symmetric. -/
theorem payloadEq_symm (a b : PayloadData) : payloadEq a b = payloadEq b a := by
  cases a <;> cases b <;> simp only [payloadEq, dataEqStr, dataEqPix] <;>
    rw [Bool.eq_iff_iff, beq_iff_eq, beq_iff_eq] <;> exact eq_comm

/-- Sorting preserves `Pairwise` for a symmetric relation. -/
theorem pairwise_reorder {R : ClipboardItem → ClipboardItem → Prop}
    (hsymm : ∀ {x y : ClipboardItem}, R x y → R y x) {l : List ClipboardItem}
    (h : l.Pairwise R) : (reorder_items l).Pairwise R :=
  ((List.perm_insertionSort keyLE l).pairwise_iff @hsymm).mpr h

/-- Sorting preserves membership. -/
theorem mem_reorder_iff {x : ClipboardItem} {l : List ClipboardItem} :
    x ∈ reorder_items l ↔ x ∈ l :=
  (List.perm_insertionSort keyLE l).mem_iff

/-- The coherence condition between an item's `data_type` tag and the shape
of its `data` value, as established by the classifier and the codec. -/
def kindPayloadOK (it : ClipboardItem) : Prop :=
  (it.data_type = "image" → ∃ p, it.data = PayloadData.pix p) ∧
  (it.data_type ≠ "image" → ∃ s, it.data = PayloadData.str s)

/-- The engine invariant: every index is below the counter, indices are
pairwise distinct, payloads are pairwise distinct under the duplicate
comparison, and each item's tag matches its payload shape. -/
structure Inv (st : ManagerState) : Prop where
  idBound : ∀ it ∈ st.items, it.index < st.counter
  idsDistinct : st.items.Pairwise (fun a b => a.index ≠ b.index)
  payloadsDistinct : st.items.Pairwise (fun a b => payloadEq a.data b.data = false)
  kindOK : ∀ it ∈ st.items, kindPayloadOK it

theorem Inv.initial : Inv initialState :=
  ⟨by simp [initialState], by simp [initialState], by simp [initialState],
   by simp [initialState]⟩

theorem Inv.ingest_pres {st : ManagerState} (h : Inv st) (dt : String) (d : PayloadData)
    (hk : kindPayloadOK ⟨dt, d, false, st.counter⟩) : Inv (ingest st dt d) := by
  unfold Qlip.ingest
  by_cases hdup : st.items.any (fun it => payloadEq it.data d) = true
  · simpa [hdup] using h
  · have hfresh : ∀ a ∈ st.items, payloadEq a.data d = false := by
      intro a ha
      by_contra hne
      exact hdup (List.any_eq_true.mpr ⟨a, ha, by simpa using hne⟩)
    rw [if_neg hdup]
    simp only [add_item_to_list]
    refine ⟨?_, ?_, ?_, ?_⟩
    · intro it hit
      rcases List.mem_append.mp (mem_reorder_iff.mp hit) with hold | hnew
      · exact Nat.lt_succ_of_lt (h.idBound it hold)
      · rw [List.mem_singleton] at hnew; subst hnew; exact Nat.lt_succ_self _
    · refine pairwise_reorder (fun hxy => Ne.symm hxy) ?_
      refine List.pairwise_append.mpr ⟨h.idsDistinct, List.pairwise_singleton _ _, ?_⟩
      intro a ha b hb
      rw [List.mem_singleton] at hb; subst hb
      exact Nat.ne_of_lt (h.idBound a ha)
    · refine pairwise_reorder (fun {x y} hxy => by rw [payloadEq_symm]; exact hxy) ?_
      refine List.pairwise_append.mpr ⟨h.payloadsDistinct, List.pairwise_singleton _ _, ?_⟩
      intro a ha b hb
      rw [List.mem_singleton] at hb; subst hb
      exact hfresh a ha
    · intro it hit
      rcases List.mem_append.mp (mem_reorder_iff.mp hit) with hold | hnew
      · exact h.kindOK it hold
      · rw [List.mem_singleton] at hnew; subst hnew; exact hk

theorem kindPayloadOK_str {dt : String} (hne : dt ≠ "image") (s : String)
    (fav : Bool) (idx : Nat) : kindPayloadOK ⟨dt, PayloadData.str s, fav, idx⟩ :=
  ⟨fun hcon => absurd hcon hne, fun _ => ⟨s, rfl⟩⟩

theorem kindPayloadOK_piximg (p : QPixmap) (fav : Bool) (idx : Nat) :
    kindPayloadOK ⟨"image", PayloadData.pix p, fav, idx⟩ :=
  ⟨fun _ => ⟨p, rfl⟩, fun hcon => absurd rfl hcon⟩

theorem Inv.fold_pres {urls : List QUrl} : ∀ {st : ManagerState}, Inv st →
    Inv (urls.foldl
      (fun acc url =>
        if url.isLocalFile then
          if url.toLocalFile ≠ "" then ingest acc "file" (.str url.toLocalFile)
          else acc
        else acc)
      st) := by
  induction urls with
  | nil => intro st h; exact h
  | cons u us ih =>
    intro st h
    rw [List.foldl_cons]
    apply ih
    by_cases h1 : u.isLocalFile = true
    · rw [if_pos h1]
      by_cases h2 : u.toLocalFile ≠ ""
      · rw [if_pos h2]
        exact h.ingest_pres _ _ (kindPayloadOK_str (by decide) _ false st.counter)
      · rw [if_neg h2]; exact h
    · rw [if_neg h1]; exact h

theorem Inv.process_pres {st : ManagerState} (h : Inv st) (mime : QMimeData) :
    Inv (process_mime_data st mime) := by
  unfold process_mime_data
  split
  · split
    · split
      · exact h.ingest_pres _ _ (kindPayloadOK_str (by decide) _ false st.counter)
      · split
        · exact h.ingest_pres _ _ (kindPayloadOK_str (by decide) _ false st.counter)
        · split
          · exact h.ingest_pres _ _ (kindPayloadOK_str (by decide) _ false st.counter)
          · exact h.ingest_pres _ _ (kindPayloadOK_str (by decide) _ false st.counter)
    · exact h
  · split
    · exact h.ingest_pres _ _ (kindPayloadOK_piximg _ false st.counter)
    · exact h.fold_pres

theorem Inv.change_pres {st : ManagerState} (h : Inv st) (mime : QMimeData) :
    Inv (on_clipboard_change st mime) := by
  unfold on_clipboard_change
  by_cases hp : st.is_paused = true
  · rw [if_pos hp]; exact h
  · rw [if_neg hp]; exact h.process_pres mime

theorem Inv.pause_pres {st : ManagerState} (h : Inv st) : Inv (toggle_pause st) :=
  ⟨h.idBound, h.idsDistinct, h.payloadsDistinct, h.kindOK⟩

theorem Inv.clear_pres {st : ManagerState} (_ : Inv st) : Inv (delete_all_items st) :=
  ⟨by simp [delete_all_items], by simp [delete_all_items],
   by simp [delete_all_items], by simp [delete_all_items]⟩

theorem Inv.fav_pres {st : ManagerState} (h : Inv st) (idx : Nat) :
    Inv (toggle_favorite_item st idx) := by
  have hidx : ∀ it : ClipboardItem,
      (if it.index == idx then { it with favorite := !it.favorite } else it).index =
        it.index := by
    intro it; split <;> rfl
  have hdata : ∀ it : ClipboardItem,
      (if it.index == idx then { it with favorite := !it.favorite } else it).data =
        it.data := by
    intro it; split <;> rfl
  have hdt : ∀ it : ClipboardItem,
      (if it.index == idx then { it with favorite := !it.favorite } else it).data_type =
        it.data_type := by
    intro it; split <;> rfl
  simp only [toggle_favorite_item]
  refine ⟨?_, ?_, ?_, ?_⟩
  · intro it hit
    rcases List.mem_map.mp (mem_reorder_iff.mp hit) with ⟨a, ha, hfa⟩
    subst hfa
    rw [hidx]
    exact h.idBound a ha
  · refine pairwise_reorder (fun hxy => Ne.symm hxy) ?_
    refine List.pairwise_map.mpr (h.idsDistinct.imp ?_)
    intro a b hab
    rw [hidx, hidx]; exact hab
  · refine pairwise_reorder (fun {x y} hxy => by rw [payloadEq_symm]; exact hxy) ?_
    refine List.pairwise_map.mpr (h.payloadsDistinct.imp ?_)
    intro a b hab
    rw [hdata, hdata]; exact hab
  · intro it hit
    rcases List.mem_map.mp (mem_reorder_iff.mp hit) with ⟨a, ha, hfa⟩
    subst hfa
    rcases h.kindOK a ha with ⟨hk1, hk2⟩
    exact ⟨fun him => by rw [hdata]; exact hk1 (by rw [hdt] at him; exact him),
           fun him => by rw [hdata]; exact hk2 (by rw [hdt] at him; exact him)⟩

theorem Inv.del_pres {st : ManagerState} (h : Inv st) (idx : Nat) :
    Inv (delete_item st idx) := by
  have hsub : (delete_item st idx).items.Sublist st.items := List.eraseP_sublist _
  exact ⟨fun it hit => h.idBound it (hsub.subset hit),
         h.idsDistinct.sublist hsub,
         h.payloadsDistinct.sublist hsub,
         fun it hit => h.kindOK it (hsub.subset hit)⟩

/-- `foldl Nat.max b` dominates its seed and every list element. -/
theorem foldl_max_le (l : List Nat) (b : Nat) :
    b ≤ l.foldl Nat.max b ∧ ∀ a ∈ l, a ≤ l.foldl Nat.max b := by
  induction l generalizing b with
  | nil => exact ⟨Nat.le_refl b, by intro a ha; cases ha⟩
  | cons x xs ih =>
    refine ⟨Nat.le_trans (Nat.le_max_left b x) (ih (Nat.max b x)).1, ?_⟩
    intro a ha
    rcases List.mem_cons.mp ha with rfl | ha'
    · exact Nat.le_trans (Nat.le_max_right b a) (ih (Nat.max b a)).1
    · exact (ih (Nat.max b x)).2 a ha'

/-- `foldl Nat.max b` is the seed or an element of the list. -/
theorem foldl_max_mem (l : List Nat) (b : Nat) :
    l.foldl Nat.max b = b ∨ l.foldl Nat.max b ∈ l := by
  induction l generalizing b with
  | nil => exact Or.inl rfl
  | cons x xs ih =>
    rcases ih (Nat.max b x) with hh | hh
    · rw [List.foldl_cons, hh]
      by_cases hbx : b ≤ x
      · have hx : Nat.max b x = x := show (if b ≤ x then x else b) = x from if_pos hbx
        exact Or.inr (by rw [hx]; exact List.mem_cons_self x xs)
      · exact Or.inl (show (if b ≤ x then x else b) = b from if_neg hbx)
    · exact Or.inr (List.mem_cons_of_mem x (by rw [List.foldl_cons]; exact hh))

/-- Decoding the saved record list of a coherent store gives back exactly
its non-image items. -/
theorem decode_save {st : ManagerState} (h : Inv st) :
    (save_items_to_file st).map ClipboardItem.from_dict =
      st.items.filter (fun it => it.data_type != "image") := by
  unfold save_items_to_file
  rw [List.map_map]
  have hpt : ∀ it ∈ st.items.filter (fun it => it.data_type != "image"),
      (ClipboardItem.from_dict ∘ ClipboardItem.to_dict) it = it := by
    intro it hit
    rcases List.mem_filter.mp hit with ⟨hmem, hbne⟩
    have hne : it.data_type ≠ "image" := by simpa using hbne
    rcases (h.kindOK it hmem).2 hne with ⟨s, hs⟩
    cases it
    subst hs
    rfl
  rw [List.map_congr_left hpt]
  simp

/-- Reloading a record list previously saved from a coherent store yields a
coherent store. -/
theorem Inv.load_pres {st st' st'' : ManagerState} (h : Inv st)
    (hload : load_items_from_file st' (.wellFormed (save_items_to_file st)) =
      .ok st'') : Inv st'' := by
  have hdef : load_items_from_file st' (.wellFormed (save_items_to_file st)) =
      Except.ok { st' with
        items := reorder_items ((save_items_to_file st).map ClipboardItem.from_dict),
        counter :=
          if ((save_items_to_file st).map ClipboardItem.from_dict).isEmpty then 0
          else (((save_items_to_file st).map ClipboardItem.from_dict).map
              ClipboardItem.index).foldl Nat.max 0 + 1 } := rfl
  rw [hdef] at hload
  injection hload with hst
  subst hst
  rw [decode_save h]
  have hsub : (st.items.filter (fun it => it.data_type != "image")).Sublist st.items :=
    List.filter_sublist _
  refine ⟨?_, ?_, ?_, ?_⟩
  · intro it hit
    have hmem := mem_reorder_iff.mp hit
    by_cases hemp : (st.items.filter (fun it => it.data_type != "image")).isEmpty = true
    · rw [List.isEmpty_iff] at hemp
      rw [hemp] at hmem
      cases hmem
    · simp only [hemp, if_false, Bool.false_eq_true]
      have hle := (foldl_max_le
        ((st.items.filter (fun it => it.data_type != "image")).map ClipboardItem.index)
        0).2 it.index (List.mem_map.mpr ⟨it, hmem, rfl⟩)
      exact Nat.lt_succ_of_le hle
  · exact pairwise_reorder (fun hxy => Ne.symm hxy) (h.idsDistinct.sublist hsub)
  · exact pairwise_reorder (fun {x y} hxy => by rw [payloadEq_symm]; exact hxy)
      (h.payloadsDistinct.sublist hsub)
  · intro it hit
    exact h.kindOK it (hsub.subset (mem_reorder_iff.mp hit))

/-- Every reachable state satisfies the engine invariant. -/
theorem Inv.ofReachable {st : ManagerState} (h : Reachable st) : Inv st := by
  induction h with
  | init => exact Inv.initial
  | clipboardChange mime _ ih => exact ih.change_pres mime
  | dropEvent mime _ ih => exact ih.process_pres mime
  | pauseToggle _ ih => exact ih.pause_pres
  | favToggle idx _ ih => exact ih.fav_pres idx
  | itemDelete idx _ ih => exact ih.del_pres idx
  | allDelete _ ih => exact ih.clear_pres
  | persistReload _ _ hload ih _ => exact ih.load_pres hload

/-- Pairwise facts combine pointwise. -/
theorem pairwise_and {α : Type} {R S : α → α → Prop} {l : List α}
    (hR : l.Pairwise R) (hS : l.Pairwise S) :
    l.Pairwise (fun a b => R a b ∧ S a b) := by
  induction l with
  | nil => exact List.Pairwise.nil
  | cons x xs ih =>
    rcases List.pairwise_cons.mp hR with ⟨hRx, hR2⟩
    rcases List.pairwise_cons.mp hS with ⟨hSx, hS2⟩
    exact List.pairwise_cons.mpr ⟨fun y hy => ⟨hRx y hy, hSx y hy⟩, ih hR2 hS2⟩

/-! ## Claim theorems -/

/-- Claim C1: for every sequence of clipboard-change events processed from
the empty store (the engine starts unpaused), the resulting store contains
no two items whose payloads are equal — raw string equality for
text/url/file payloads, decoded pixel-content equality for image payloads —
the comparison being applied against every existing item regardless of its
kind tag. -/
theorem ingest_dedup_invariant (mimes : List QMimeData) :
    ((mimes.foldl on_clipboard_change initialState).items).Pairwise
      (fun a b => payloadEq a.data b.data = false) := by
  have hfold : ∀ (ms : List QMimeData) (st : ManagerState), Inv st →
      Inv (ms.foldl on_clipboard_change st) := by
    intro ms
    induction ms with
    | nil => intro st hst; exact hst
    | cons m ms ih =>
      intro st hst
      rw [List.foldl_cons]
      exact ih _ (hst.change_pres m)
  exact (hfold mimes initialState Inv.initial).payloadsDistinct

/-- Claim C3: in every reachable engine state, the display-order view puts
every favorite item before every non-favorite item, and within each of the
two partitions indices are strictly increasing; `ordered_view` recomputes
this sequence purely from the current item set. -/
theorem ordered_view_invariant (st : ManagerState) (h : Reachable st) :
    (ordered_view st).Pairwise (fun a b =>
      (b.favorite = true → a.favorite = true) ∧
      (a.favorite = b.favorite → a.index < b.index)) := by
  have hinv := Inv.ofReachable h
  have hsorted : (ordered_view st).Pairwise keyLE :=
    List.sorted_insertionSort keyLE st.items
  have hne : (ordered_view st).Pairwise (fun a b => a.index ≠ b.index) :=
    pairwise_reorder (fun hxy => Ne.symm hxy) hinv.idsDistinct
  refine (pairwise_and hsorted hne).imp ?_
  intro a b hab
  rcases hab with ⟨hle, hne2⟩
  cases hf : a.favorite <;> cases hg : b.favorite <;>
    simp [keyLE, notFavRank, hf, hg] at hle ⊢ <;> omega

/-- The states used to witness the reachable-state claims. -/
def mimeAlpha : QMimeData := ⟨some "alpha", none, []⟩

def mimeBeta : QMimeData := ⟨some "beta", none, []⟩

def stWitness : ManagerState :=
  on_clipboard_change (on_clipboard_change initialState mimeAlpha) mimeBeta

/-- Witness for claim C3 at a concrete reachable two-item state. -/
theorem ordered_view_invariant_witness :
    Reachable stWitness ∧
    (ordered_view stWitness).Pairwise (fun a b =>
      (b.favorite = true → a.favorite = true) ∧
      (a.favorite = b.favorite → a.index < b.index)) :=
  ⟨Reachable.clipboardChange mimeBeta
      (Reachable.clipboardChange mimeAlpha Reachable.init),
   ordered_view_invariant stWitness
      (Reachable.clipboardChange mimeBeta
        (Reachable.clipboardChange mimeAlpha Reachable.init))⟩

/-- Claim C2 counterexample: a raw payload carrying both an image and a
text representation is classified by its text — the store receives a
`"text"` item, not an `"image"` one, because `process_mime_data` checks
`hasText()` before `hasImage()`. -/
theorem classify_order_counterexample :
    ((process_mime_data initialState ⟨some "hello", some [[1, 2], [3, 4]], []⟩).items.map
        (fun it => it.data_type) = ["text"]) ∧
    ((process_mime_data initialState ⟨some "hello", some [[1, 2], [3, 4]], []⟩).items.map
        (fun it => it.data_type) ≠ ["image"]) :=
  ⟨by decide, by decide⟩

/-- Claim C2 (amended): classification evaluates the text representation
first, then the image, then local-file URIs; whenever a text representation
is present the image and URI representations are ignored entirely, and when
no text is present the image representation takes precedence over URIs. -/
theorem text_checked_before_image (st : ManagerState) (s : String)
    (img : Option QImage) (urls : List QUrl) :
    (process_mime_data st ⟨some s, img, urls⟩ =
      process_mime_data st ⟨some s, none, []⟩) ∧
    (∀ (i : QImage) (us : List QUrl),
      process_mime_data st ⟨none, some i, us⟩ =
        process_mime_data st ⟨none, some i, []⟩) :=
  ⟨rfl, fun _ _ => rfl⟩

/-- Claim C4 counterexample: a present-but-malformed history file makes the
startup load fail with a propagated error — it does not degrade to an empty
store. -/
theorem malformed_history_counterexample :
    load_items_from_file initialState FileContents.malformed =
      Except.error LoadError.parseError := rfl

/-- Claim C4 (amended): if the history file is absent, startup proceeds
with the store it already has (empty at startup); but if the file exists
and is malformed or unreadable, the decode failure propagates to the caller
of startup — there is no handler that degrades to an empty store. -/
theorem load_error_behaviour (st : ManagerState) :
    (load_items_from_file st FileContents.absent = Except.ok st) ∧
    (load_items_from_file st FileContents.malformed =
      Except.error LoadError.parseError) :=
  ⟨rfl, rfl⟩

/-- Whether a payload value is a string (as text/url/file payloads are). -/
def PayloadData.isStr : PayloadData → Bool
  | .str _ => true
  | .pix _ => false

/-- Claim C5: a store whose items all have kind text/url/file (hence, as
the engine constructs them, string payloads) encodes and then decodes to
the same set of `(kind, payload, favorite, id)` tuples and to the same
display-order sequence. -/
theorem persistence_round_trip (st : ManagerState)
    (hk : ∀ it ∈ st.items,
      it.data_type = "text" ∨ it.data_type = "url" ∨ it.data_type = "file")
    (hs : ∀ it ∈ st.items, it.data.isStr = true) :
    ∃ st', load_items_from_file initialState
        (FileContents.wellFormed (save_items_to_file st)) = Except.ok st' ∧
      List.Perm (st'.items.map itemTuple) (st.items.map itemTuple) ∧
      ordered_view st' = ordered_view st := by
  have hfilter : st.items.filter (fun it => it.data_type != "image") = st.items :=
    List.filter_eq_self.mpr (by
      intro it hit
      rcases hk it hit with h1 | h1 | h1 <;> rw [h1] <;> decide)
  have hdec : (save_items_to_file st).map ClipboardItem.from_dict = st.items := by
    unfold save_items_to_file
    rw [hfilter, List.map_map]
    have hpt : ∀ it ∈ st.items,
        (ClipboardItem.from_dict ∘ ClipboardItem.to_dict) it = it := by
      intro it hit
      have hstr := hs it hit
      cases hd : it.data with
      | str s =>
        cases it
        subst hd
        rfl
      | pix p =>
        rw [hd] at hstr
        exact absurd hstr (by simp [PayloadData.isStr])
    rw [List.map_congr_left hpt]
    simp
  have hok : load_items_from_file initialState
      (FileContents.wellFormed (save_items_to_file st)) =
      Except.ok { initialState with
        items := reorder_items ((save_items_to_file st).map ClipboardItem.from_dict),
        counter :=
          if ((save_items_to_file st).map ClipboardItem.from_dict).isEmpty then 0
          else (((save_items_to_file st).map ClipboardItem.from_dict).map
              ClipboardItem.index).foldl Nat.max 0 + 1 } := rfl
  rw [hdec] at hok
  refine ⟨_, hok, ?_, ?_⟩
  · exact (List.perm_insertionSort keyLE st.items).map itemTuple
  · exact List.Sorted.insertionSort_eq (List.sorted_insertionSort keyLE st.items)

/-- The store used to witness claim C5. -/
def stRoundTrip : ManagerState :=
  ⟨[⟨"url", .str "http://a", true, 1⟩, ⟨"text", .str "b", false, 0⟩], 2, false⟩

/-- Witness for claim C5 at a concrete two-item text/url store. -/
theorem persistence_round_trip_witness :
    (∀ it ∈ stRoundTrip.items,
      it.data_type = "text" ∨ it.data_type = "url" ∨ it.data_type = "file") ∧
    (∀ it ∈ stRoundTrip.items, it.data.isStr = true) ∧
    ∃ st', load_items_from_file initialState
        (FileContents.wellFormed (save_items_to_file stRoundTrip)) = Except.ok st' ∧
      List.Perm (st'.items.map itemTuple) (stRoundTrip.items.map itemTuple) ∧
      ordered_view st' = ordered_view stRoundTrip :=
  ⟨by decide, by decide,
   persistence_round_trip stRoundTrip (by decide) (by decide)⟩

/-- Claim C6: encode maps every non-image item to the record carrying its
kind, payload, favorite flag and id, emits no record for image items, and
its output never contains an image-kind record. -/
theorem encode_excludes_images (st : ManagerState) :
    (∀ r ∈ save_items_to_file st, r.data_type ≠ "image" ∧
      ∃ it ∈ st.items, it.data_type ≠ "image" ∧ r = it.to_dict) ∧
    (∀ it ∈ st.items, it.data_type ≠ "image" →
      it.to_dict ∈ save_items_to_file st) := by
  constructor
  · intro r hr
    rcases List.mem_map.mp hr with ⟨it, hit, hrt⟩
    rcases List.mem_filter.mp hit with ⟨hmem, hbne⟩
    have hne : it.data_type ≠ "image" := by simpa using hbne
    subst hrt
    exact ⟨hne, it, hmem, hne, rfl⟩
  · intro it hit hne
    exact List.mem_map.mpr ⟨it, List.mem_filter.mpr ⟨hit, by simpa using hne⟩, rfl⟩

/-- The store used to witness claim C6: one text item, one image item. -/
def stEncode : ManagerState :=
  ⟨[⟨"text", .str "x", false, 0⟩, ⟨"image", .pix ⟨[[7]]⟩, false, 1⟩], 2, false⟩

/-- Witness for claim C6: the text item's record is persisted, and the
persisted record is not image-kind. -/
theorem encode_excludes_images_witness :
    ((⟨"text", PayloadData.str "x", false, 0⟩ : ClipboardItem).to_dict ∈
      save_items_to_file stEncode) ∧
    (⟨"text", "x", false, 0⟩ : Record).data_type ≠ "image" :=
  ⟨(encode_excludes_images stEncode).2 ⟨"text", PayloadData.str "x", false, 0⟩
      (by decide) (by decide),
   ((encode_excludes_images stEncode).1 ⟨"text", "x", false, 0⟩ (by decide)).1⟩

/-- Claim C7: while the engine is paused, any number of clipboard-change
events leave the whole state — the item set and the id counter included —
exactly unchanged. -/
theorem pause_gating (st : ManagerState) (h : st.is_paused = true)
    (mimes : List QMimeData) :
    mimes.foldl on_clipboard_change st = st := by
  induction mimes with
  | nil => rfl
  | cons m ms ih =>
    rw [List.foldl_cons,
      show on_clipboard_change st m = st from by
        unfold on_clipboard_change; rw [if_pos h]]
    exact ih

/-- The paused state used to witness claim C7. -/
def pausedState : ManagerState := toggle_pause initialState

/-- Witness for claim C7: two events (one textual, one an image) hit a
paused engine and change nothing. -/
theorem pause_gating_witness :
    pausedState.is_paused = true ∧
    ([(⟨some "alpha", none, []⟩ : QMimeData), ⟨none, some [[1]], []⟩].foldl
      on_clipboard_change pausedState = pausedState) :=
  ⟨by decide, pause_gating pausedState (by decide) _⟩

/-- Claim C8: after clear_all the store is empty and the allocator is 0, so
one subsequent ingest (necessarily fresh against the empty store) yields
exactly one item whose id is 0. -/
theorem clear_then_ingest (st : ManagerState) (data_type : String)
    (data : PayloadData) :
    (delete_all_items st).items = [] ∧
    (delete_all_items st).counter = 0 ∧
    (ingest (delete_all_items st) data_type data).items =
      [⟨data_type, data, false, 0⟩] ∧
    (ingest (delete_all_items st) data_type data).counter = 1 :=
  ⟨rfl, rfl, rfl, rfl⟩

/-- Claim C9: loading a well-formed record list sets the id allocator to
one more than the maximum persisted id — 0 for the empty list — and the
next fresh ingest allocates exactly that id. -/
theorem id_recovery_on_load (records : List Record) (st' : ManagerState)
    (hload : load_items_from_file initialState (FileContents.wellFormed records) =
      Except.ok st') :
    (records = [] → st'.counter = 0) ∧
    (∀ r ∈ records, r.index < st'.counter) ∧
    (records ≠ [] → ∃ r ∈ records, st'.counter = r.index + 1) ∧
    (∀ dt d, st'.items.any (fun it => payloadEq it.data d) = false →
      (⟨dt, d, false, st'.counter⟩ : ClipboardItem) ∈ (ingest st' dt d).items) := by
  have hdef : load_items_from_file initialState (FileContents.wellFormed records) =
      Except.ok { initialState with
        items := reorder_items (records.map ClipboardItem.from_dict),
        counter :=
          if (records.map ClipboardItem.from_dict).isEmpty then 0
          else ((records.map ClipboardItem.from_dict).map
              ClipboardItem.index).foldl Nat.max 0 + 1 } := rfl
  rw [hdef] at hload
  injection hload with hst
  subst hst
  have hidx : (records.map ClipboardItem.from_dict).map ClipboardItem.index =
      records.map Record.index := by
    rw [List.map_map]; rfl
  refine ⟨?_, ?_, ?_, ?_⟩
  · intro hrec; subst hrec; rfl
  · intro r hr
    have hne : (records.map ClipboardItem.from_dict).isEmpty = false := by
      cases records with
      | nil => cases hr
      | cons a as => rfl
    show r.index <
      (if (records.map ClipboardItem.from_dict).isEmpty then 0
       else ((records.map ClipboardItem.from_dict).map
          ClipboardItem.index).foldl Nat.max 0 + 1)
    rw [hne, hidx]
    have hle := (foldl_max_le (records.map Record.index) 0).2 r.index
      (List.mem_map.mpr ⟨r, hr, rfl⟩)
    simpa using Nat.lt_succ_of_le hle
  · intro hne0
    have hne : (records.map ClipboardItem.from_dict).isEmpty = false := by
      cases records with
      | nil => exact absurd rfl hne0
      | cons a as => rfl
    have hcnt :
        ({ initialState with
            items := reorder_items (records.map ClipboardItem.from_dict),
            counter :=
              if (records.map ClipboardItem.from_dict).isEmpty then 0
              else ((records.map ClipboardItem.from_dict).map
                  ClipboardItem.index).foldl Nat.max 0 + 1 } :
          ManagerState).counter =
        (records.map Record.index).foldl Nat.max 0 + 1 := by
      show (if (records.map ClipboardItem.from_dict).isEmpty then 0
        else ((records.map ClipboardItem.from_dict).map
            ClipboardItem.index).foldl Nat.max 0 + 1) =
        (records.map Record.index).foldl Nat.max 0 + 1
      rw [hne, hidx]
      simp
    rw [hcnt]
    rcases foldl_max_mem (records.map Record.index) 0 with hm | hm
    · cases records with
      | nil => exact absurd rfl hne0
      | cons r0 rs =>
        have h0 : r0.index ≤ (( r0 :: rs).map Record.index).foldl Nat.max 0 :=
          (foldl_max_le ((r0 :: rs).map Record.index) 0).2 r0.index (by simp)
        rw [hm] at h0
        exact ⟨r0, List.mem_cons_self _ _, by omega⟩
    · rcases List.mem_map.mp hm with ⟨r, hr, hri⟩
      exact ⟨r, hr, by rw [hri]⟩
  · intro dt d hfresh
    unfold Qlip.ingest
    rw [hfresh]
    rw [if_neg (by exact Bool.false_ne_true)]
    exact mem_reorder_iff.mpr
      (List.mem_append.mpr (Or.inr (List.mem_singleton_self _)))

/-- The record list with ids 0, 2, 5 used to witness claim C9. -/
def recsFixture : List Record :=
  [⟨"text", "a", false, 0⟩, ⟨"text", "b", false, 2⟩, ⟨"text", "c", true, 5⟩]

/-- The store produced by loading `recsFixture`. -/
def stLoaded : ManagerState :=
  ⟨[⟨"text", .str "c", true, 5⟩, ⟨"text", .str "a", false, 0⟩,
    ⟨"text", .str "b", false, 2⟩], 6, false⟩

/-- Witness for claim C9: ids [0, 2, 5] recover next_id 6, and ingesting a
fresh payload afterwards allocates id 6. -/
theorem id_recovery_on_load_witness :
    (load_items_from_file initialState (FileContents.wellFormed recsFixture) =
      Except.ok stLoaded) ∧
    stLoaded.counter = 6 ∧
    ((recsFixture = [] → stLoaded.counter = 0) ∧
      (∀ r ∈ recsFixture, r.index < stLoaded.counter) ∧
      (recsFixture ≠ [] → ∃ r ∈ recsFixture, stLoaded.counter = r.index + 1) ∧
      (∀ dt d, stLoaded.items.any (fun it => payloadEq it.data d) = false →
        (⟨dt, d, false, stLoaded.counter⟩ : ClipboardItem) ∈
          (ingest stLoaded dt d).items)) ∧
    (⟨"text", PayloadData.str "z", false, 6⟩ : ClipboardItem) ∈
      (ingest stLoaded "text" (PayloadData.str "z")).items :=
  ⟨rfl, rfl, id_recovery_on_load recsFixture stLoaded rfl,
   (id_recovery_on_load recsFixture stLoaded rfl).2.2.2 "text"
     (PayloadData.str "z") (by decide)⟩

/-- Claim C10: activating a Text item whose payload begins with "/" writes
the payload as clipboard text AND additionally treats it as a local
filesystem path — opening it externally if it exists and reporting a
missing file otherwise — which is exactly the activation behaviour of a
File-kind item with the same payload. -/
theorem slash_text_activates_as_file (fsExists : String → Bool)
    (it : ClipboardItem) (hdt : it.data_type = "text")
    (hsl : strStartsWith (payloadString it.data) "/" = true) :
    (on_item_clicked fsExists it =
      Effect.setClipboardText (payloadString it.data) ::
        (if fsExists (payloadString it.data) then
          [Effect.openLocalFile (payloadString it.data)]
        else [Effect.warnFileMissing (payloadString it.data)])) ∧
    on_item_clicked fsExists it =
      on_item_clicked fsExists ⟨"file", it.data, it.favorite, it.index⟩ := by
  constructor
  · unfold on_item_clicked
    rw [hdt]
    simp [hsl]
  · unfold on_item_clicked
    rw [hdt]
    simp [hsl]

/-- The filesystem oracle used to witness claim C10: exactly one path
exists. -/
def fsOracle : String → Bool := fun p => p == "/tmp/qlip.txt"

/-- Witness for claim C10 at a concrete slash-prefixed text item. -/
theorem slash_text_activates_as_file_witness :
    ((⟨"text", PayloadData.str "/tmp/qlip.txt", false, 0⟩ :
        ClipboardItem).data_type = "text") ∧
    (strStartsWith (payloadString (PayloadData.str "/tmp/qlip.txt")) "/" = true) ∧
    ((on_item_clicked fsOracle ⟨"text", PayloadData.str "/tmp/qlip.txt", false, 0⟩ =
      Effect.setClipboardText
          (payloadString (PayloadData.str "/tmp/qlip.txt")) ::
        (if fsOracle (payloadString (PayloadData.str "/tmp/qlip.txt")) then
          [Effect.openLocalFile (payloadString (PayloadData.str "/tmp/qlip.txt"))]
        else
          [Effect.warnFileMissing
            (payloadString (PayloadData.str "/tmp/qlip.txt"))])) ∧
      on_item_clicked fsOracle ⟨"text", PayloadData.str "/tmp/qlip.txt", false, 0⟩ =
        on_item_clicked fsOracle ⟨"file", PayloadData.str "/tmp/qlip.txt", false, 0⟩) :=
  ⟨rfl, by decide,
   slash_text_activates_as_file fsOracle
     ⟨"text", PayloadData.str "/tmp/qlip.txt", false, 0⟩ rfl (by decide)⟩

end Qlip
